import Mathlib

/-!
# Ripes RV32I runner: field decoder and execution engine

Shallow embedding of `src/runner.cpp`.

Conventions of the embedding:
* a `uint32_t` is a `Nat` below `2^32`; every operation that can leave that
  range is followed by an explicit `% 2^32`;
* an `int` is an `Int`; `int` addition is wrapped into the 32-bit signed range
  by `wrapInt`;
* `std::vector<T>` is a `List`; `v[i]` is `v.getD i 0`, and `v[i] = x` is
  `v.set i x`;
* assertion failure is `none`.
-/

namespace Ripes

/-! ## Machine integers -/

/-- Conversion of a mathematical integer to `uint32_t` (reduction modulo `2^32`). -/
def toU32 (x : Int) : Nat := (x % 2 ^ 32).toNat

/-- Conversion of a mathematical integer to a 32-bit two's complement `int`. -/
def wrapInt (x : Int) : Int := (x + 2 ^ 31) % 2 ^ 32 - 2 ^ 31

/-- Reading of a `uint32_t` bit pattern as an `int32_t` (the cast `(int32_t)x`). -/
def toI32 (x : Nat) : Int := if x % 2 ^ 32 < 2 ^ 31 then (x % 2 ^ 32 : Nat) else (x % 2 ^ 32 : Nat) - 2 ^ 32

/-! ## Field decoder (`generateBitmask`, `Runner::generateWordParser`) -/

/-- The `for` loop of `generateBitmask`: `k` iterations of `mask |= 1; mask <<= 1`
on a `uint32_t`. -/
def generateBitmaskLoop : Nat → Nat → Nat
  | 0, mask => mask
  | k + 1, mask => generateBitmaskLoop k (((mask ||| 1) <<< 1) % 2 ^ 32)

/-- `uint32_t generateBitmask(int n)`: the loop runs for `i = 0 .. n - 2`, then the
lowest bit is set once more. -/
def generateBitmask (n : Int) : Nat :=
  generateBitmaskLoop (n - 1).toNat 0 ||| 1

/-- The first loop of `generateWordParser`: `tot += field` over the `int` widths,
starting from the running total `tot`. -/
def sumFields : Int → List Int → Int
  | tot, [] => tot
  | tot, field :: rest => sumFields (wrapInt (tot + field)) rest

/-- The second loop of `generateWordParser`: the vector of
`pair<uint32_t, uint32_t>(field, generateBitmask(field))`. -/
def parseVector (bitFields : List Int) : List (Nat × Nat) :=
  bitFields.map fun field => (toU32 field, generateBitmask field)

/-- The loop of the `wordParser` lambda: every field is inserted at the front of
`parsedWord`, then the word is shifted right by the field width. -/
def wordParserLoop : List (Nat × Nat) → Nat → List Nat → List Nat
  | [], _, parsedWord => parsedWord
  | field :: rest, word, parsedWord =>
      wordParserLoop rest (word >>> field.1) ((word &&& field.2) :: parsedWord)

/-- The `wordParser` lambda: drop the 7 opcode bits, then run the loop. -/
def wordParser (pv : List (Nat × Nat)) (word : Nat) : List Nat :=
  wordParserLoop pv (word >>> 7) []

/-- `Runner::generateWordParser`: `none` when the assertion `tot == 25` fails,
otherwise the decoding closure. -/
def generateWordParser (bitFields : List Int) : Option (Nat → List Nat) :=
  if sumFields 0 bitFields = 25 then some (wordParser (parseVector bitFields)) else none

/-- The functor stored by the constructor for a layout (the empty decoder stands
for a constructor that did not get past the assertion). -/
def mkDecoder (bitFields : List Int) : Nat → List Nat :=
  match generateWordParser bitFields with
  | some f => f
  | none => fun _ => []

/-- Layouts passed by `Runner::Runner`, from LSB to MSB. -/
def layoutR : List Int := [5, 3, 5, 5, 7]
/-- Layout of the I format in `Runner::Runner`. -/
def layoutI : List Int := [5, 3, 5, 12]
/-- Layout of the S format in `Runner::Runner`. -/
def layoutS : List Int := [5, 3, 5, 5, 7]
/-- Layout of the B format in `Runner::Runner`. -/
def layoutB : List Int := [1, 4, 3, 5, 5, 6, 1]
/-- Layout of the U format in `Runner::Runner`. -/
def layoutU : List Int := [5, 20]
/-- Layout of the J format in `Runner::Runner`. -/
def layoutJ : List Int := [5, 8, 1, 10, 1]

/-- `decodeRInstr = generateWordParser(vector<int>{5, 3, 5, 5, 7})`. -/
def decodeRInstr : Nat → List Nat := mkDecoder layoutR
/-- `decodeIInstr = generateWordParser(vector<int>{5, 3, 5, 12})`. -/
def decodeIInstr : Nat → List Nat := mkDecoder layoutI
/-- `decodeSInstr = generateWordParser(vector<int>{5, 3, 5, 5, 7})`. -/
def decodeSInstr : Nat → List Nat := mkDecoder layoutS
/-- `decodeBInstr = generateWordParser(vector<int>{1, 4, 3, 5, 5, 6, 1})`. -/
def decodeBInstr : Nat → List Nat := mkDecoder layoutB
/-- `decodeUInstr = generateWordParser(vector<int>{5, 20})`. -/
def decodeUInstr : Nat → List Nat := mkDecoder layoutU
/-- `decodeJInstr = generateWordParser(vector<int>{5, 8, 1, 10, 1})`. -/
def decodeJInstr : Nat → List Nat := mkDecoder layoutJ

/-- The six (layout, decoder) pairs built by the constructor, in the order
R, I, S, B, U, J. -/
def formats : List (List Int × (Nat → List Nat)) :=
  [(layoutR, decodeRInstr), (layoutI, decodeIInstr), (layoutS, decodeSInstr),
   (layoutB, decodeBInstr), (layoutU, decodeUInstr), (layoutJ, decodeJInstr)]

/-! ## Synthetic encoding used to state the round trip -/

/-- Packing of field values over a layout: the first-listed field is lowest, each
following field sits directly above the previous one. -/
def packFields : List Int → List Nat → Nat
  | w :: ws, v :: vs => v + 2 ^ w.toNat * packFields ws vs
  | _, _ => 0

/-- A synthetic instruction word: the opcode in bits 6..0, the packed fields from
bit 7 upwards. -/
def encodeWord (layout : List Int) (vals : List Nat) (opcode : Nat) : Nat :=
  opcode + 2 ^ 7 * packFields layout vals

/-- Every value fits its field: as many values as widths, each below
`2^width`. -/
def FieldsFit : List Int → List Nat → Prop
  | [], [] => True
  | w :: ws, v :: vs => v < 2 ^ w.toNat ∧ FieldsFit ws vs
  | _, _ => False

/-- The running total of `sumFields` never leaves the range of a C++ `int`, so
that every `tot += field` is defined. -/
def SumInRange : Int → List Int → Prop
  | _, [] => True
  | tot, field :: rest =>
      (-(2 ^ 31) ≤ tot + field ∧ tot + field < 2 ^ 31) ∧ SumInRange (tot + field) rest

/-- The bit slices a layout cuts out of a word already shifted past the opcode:
the lowest `w` bits for the first width `w`, then the slices of the rest. -/
def fieldSlices : List Int → Nat → List Nat
  | [], _ => []
  | w :: ws, x => x % 2 ^ w.toNat :: fieldSlices ws (x / 2 ^ w.toNat)

/-- Bit offset of field `j` of a layout: 7 opcode bits plus the widths before it. -/
def fieldOffset (layout : List Int) (j : Nat) : Nat :=
  7 + ((layout.take j).map Int.toNat).sum

/-! ## Execution engine (`Runner`) -/

/-- Modelled from the spec: the enumerators of `instrType` are declared in
`runner.h`, which is not among the sources. The spec names eight opcode classes
selected by the low 7 bits of an RV32I word; they carry their RV32I encodings.
This one is load-upper-immediate. -/
def LUI : Nat := 0b0110111
/-- Modelled from the spec: the `instrType` enumerator of jump-and-link. -/
def JAL : Nat := 0b1101111
/-- Modelled from the spec: the `instrType` enumerator of jump-and-link-register. -/
def JALR : Nat := 0b1100111
/-- Modelled from the spec: the `instrType` enumerator of branches. -/
def BRANCH : Nat := 0b1100011
/-- Modelled from the spec: the `instrType` enumerator of loads. -/
def LOAD : Nat := 0b0000011
/-- Modelled from the spec: the `instrType` enumerator of stores. -/
def STORE : Nat := 0b0100011
/-- Modelled from the spec: the `instrType` enumerator of immediate arithmetic. -/
def OP_IMM : Nat := 0b0010011
/-- Modelled from the spec: the `instrType` enumerator of register arithmetic. -/
def OP : Nat := 0b0110011

/-- Modelled from the spec: the enumeration `instrState` is declared in a header
that is not among the sources; these are the four result codes `runner.cpp`
returns (the Execution Result of the spec: success or a named failure). -/
inductive instrState where
  | SUCCESS
  | EXEC_ERR
  | ERR_BFUNCT3
  | ERR_NULLLOAD
  deriving DecidableEq

open instrState

/-- Modelled from the spec: the struct `Instruction` is declared in `runner.h`,
which is not among the sources; it holds the raw fetched word and the format
discriminator derived from its low 7 bits. -/
structure Instruction where
  word : Nat
  type : Nat
  deriving DecidableEq

/-- Modelled from the spec: the members of `Runner` are declared in `runner.h`,
which is not among the sources. The architectural state is the program counter
(an unsigned 32-bit offset), the register vector, the byte memory `m_mem` (a map
from byte index to byte, since `runner.cpp` indexes it as a raw `uint8_t`
pointer), the text image with its size and the instruction latched by the last
fetch. -/
structure Runner where
  m_pc : Nat
  m_reg : List Nat
  m_mem : Nat → Nat
  m_text : List Nat
  m_textSize : Nat
  m_currentInstruction : Instruction

/-- State left by the constructor for a parsed image: 32 zeroed registers and a
program counter of 0. -/
def Runner.init (text : List Nat) (mem : Nat → Nat) : Runner :=
  { m_pc := 0, m_reg := List.replicate 32 0, m_mem := mem, m_text := text,
    m_textSize := text.length, m_currentInstruction := { word := 0, type := 0 } }

/-- The instruction `getInstruction` latches for a fetched word: the word and
`word & 0x7f`. -/
def Instruction.ofWord (word : Nat) : Instruction :=
  { word := word, type := word &&& 0x7f }

/-- The element access `fields[k]` on a decoded field vector. -/
def fld (fields : List Nat) (k : Nat) : Nat := fields.getD k 0

/-- The read `m_reg[i]`. -/
def Runner.reg (r : Runner) (i : Nat) : Nat := r.m_reg.getD i 0

/-- The write `m_reg[i] = v` of a `uint32_t` value. -/
def Runner.setReg (r : Runner) (i v : Nat) : Runner :=
  { r with m_reg := r.m_reg.set i (v % 2 ^ 32) }

/-- The byte `m_mem[a]`. -/
def Runner.byte (r : Runner) (a : Nat) : Nat := r.m_mem a % 256

/-- The write `m_mem[a] = v`: the value is converted to the `uint8_t` element. -/
def Runner.setByte (r : Runner) (a v : Nat) : Runner :=
  { r with m_mem := fun b => if b = a then v % 256 else r.m_mem b }

/-- The shift `x << k` on a `uint32_t`. -/
def shl32 (x k : Nat) : Nat := (x <<< k) % 2 ^ 32

/-- Value of an `int8_t` with the given bit pattern. -/
def toI8 (b : Nat) : Int := if b % 256 < 128 then (b % 256 : Nat) else (b % 256 : Nat) - 256

/-- Value of an `int16_t` with the given bit pattern. -/
def toI16 (h : Nat) : Int :=
  if h % 65536 < 32768 then (h % 65536 : Nat) else (h % 65536 : Nat) - 65536

/-- `Runner::execLuiInstr`. -/
def execLuiInstr (r : Runner) (instr : Instruction) : instrState × Runner :=
  let fields := decodeUInstr instr.word
  let r1 := r.setReg (fld fields 1) (shl32 (fld fields 0) 12)
  (SUCCESS, { r1 with m_pc := (r1.m_pc + 4) % 2 ^ 32 })

/-- `Runner::execJalInstr`: the program counter is advanced first, the link
register is written from the updated counter. -/
def execJalInstr (r : Runner) (instr : Instruction) : instrState × Runner :=
  let fields := decodeJInstr instr.word
  let offset := shl32 (fld fields 0) 20 ||| shl32 (fld fields 1) 1 |||
    shl32 (fld fields 2) 11 ||| shl32 (fld fields 3) 12
  let r1 := { r with m_pc := (r.m_pc + offset) % 2 ^ 32 }
  (SUCCESS, r1.setReg (fld fields 4) (r1.m_pc + 4))

/-- `Runner::execJalrInstr`. -/
def execJalrInstr (r : Runner) (instr : Instruction) : instrState × Runner :=
  let fields := decodeIInstr instr.word
  let r1 := r.setReg (fld fields 3) (r.m_pc + 4)
  (SUCCESS, { r1 with m_pc := toU32 (toI32 (fld fields 0) + fld fields 1) &&& 0xfffe })

/-- `Runner::execBranchInstr`. -/
def execBranchInstr (r : Runner) (instr : Instruction) : instrState × Runner :=
  let fields := decodeBInstr instr.word
  let target := toU32 (r.m_pc + toI32 (shl32 (fld fields 0) 12 ||| shl32 (fld fields 1) 5 |||
    shl32 (fld fields 5) 1 ||| shl32 (fld fields 6) 11))
  let next := (r.m_pc + 4) % 2 ^ 32
  let a := r.reg (fld fields 2)
  let b := r.reg (fld fields 3)
  if fld fields 4 = 0b000 then
    (SUCCESS, { r with m_pc := if a = b then target else next })
  else if fld fields 4 = 0b001 then
    (SUCCESS, { r with m_pc := if a ≠ b then target else next })
  else if fld fields 4 = 0b100 then
    (SUCCESS, { r with m_pc := if toI32 a > toI32 b then target else next })
  else if fld fields 4 = 0b101 then
    (SUCCESS, { r with m_pc := if toI32 a ≤ toI32 b then target else next })
  else if fld fields 4 = 0b110 then
    (SUCCESS, { r with m_pc := if a > b then target else next })
  else if fld fields 4 = 0b111 then
    (SUCCESS, { r with m_pc := if a ≤ b then target else next })
  else
    (ERR_BFUNCT3, r)

/-- `Runner::execLoadInstr`. The pointer casts index `m_mem` in units of the
loaded type; multi-byte elements are read little-endian. No case advances the
program counter, and a function code outside the five cases writes nothing. -/
def execLoadInstr (r : Runner) (instr : Instruction) : instrState × Runner :=
  let fields := decodeIInstr instr.word
  if fld fields 3 = 0 then
    (ERR_NULLLOAD, r)
  else
    let target := toU32 (toI32 (fld fields 0) + fld fields 1)
    let half := r.byte (2 * target) + 256 * r.byte (2 * target + 1)
    let full := r.byte (4 * target) + 256 * r.byte (4 * target + 1) +
      65536 * r.byte (4 * target + 2) + 16777216 * r.byte (4 * target + 3)
    if fld fields 2 = 0b000 then
      (SUCCESS, r.setReg (fld fields 3) (toU32 (toI8 (r.byte target))))
    else if fld fields 2 = 0b001 then
      (SUCCESS, r.setReg (fld fields 3) (toU32 (toI16 half)))
    else if fld fields 2 = 0b010 then
      (SUCCESS, r.setReg (fld fields 3) full)
    else if fld fields 2 = 0b100 then
      (SUCCESS, r.setReg (fld fields 3) (r.byte target))
    else if fld fields 2 = 0b101 then
      (SUCCESS, r.setReg (fld fields 3) half)
    else
      (SUCCESS, r)

/-- `Runner::execStoreInstr`. Every case assigns to the single `uint8_t` element
`m_mem[target]`; no case advances the program counter. -/
def execStoreInstr (r : Runner) (instr : Instruction) : instrState × Runner :=
  let fields := decodeSInstr instr.word
  let target := toU32 (toI32 (shl32 (fld fields 0) 5 ||| fld fields 4) + r.reg (fld fields 2))
  if fld fields 3 = 0b000 then
    (SUCCESS, r.setByte target (r.reg (fld fields 1) % 256))
  else if fld fields 3 = 0b001 then
    (SUCCESS, r.setByte target (r.reg (fld fields 1) % 65536))
  else if fld fields 3 = 0b010 then
    (SUCCESS, r.setByte target (r.reg (fld fields 1)))
  else
    (ERR_BFUNCT3, r)

/-- `Runner::execOpImmInstr`. A function code outside the six cases writes no
register but still advances the program counter. -/
def execOpImmInstr (r : Runner) (instr : Instruction) : instrState × Runner :=
  let fields := decodeIInstr instr.word
  if fld fields 3 = 0 then
    (ERR_NULLLOAD, r)
  else
    let a := r.reg (fld fields 1)
    let imm := fld fields 0
    let r1 :=
      if fld fields 2 = 0b000 then r.setReg (fld fields 3) (toU32 (a + toI32 imm))
      else if fld fields 2 = 0b010 then
        r.setReg (fld fields 3) (if toI32 a < toI32 imm then 1 else 0)
      else if fld fields 2 = 0b011 then r.setReg (fld fields 3) (if a < imm then 1 else 0)
      else if fld fields 2 = 0b100 then r.setReg (fld fields 3) (a ^^^ imm)
      else if fld fields 2 = 0b110 then r.setReg (fld fields 3) (a ||| imm)
      else if fld fields 2 = 0b111 then r.setReg (fld fields 3) (a &&& imm)
      else r
    (SUCCESS, { r1 with m_pc := (r1.m_pc + 4) % 2 ^ 32 })

/-- `Runner::execOpInstr`. Only `funct3 = 000` with `funct7` of 0 or `0100000`
writes a register; every word advances the program counter and succeeds. -/
def execOpInstr (r : Runner) (instr : Instruction) : instrState × Runner :=
  let fields := decodeRInstr instr.word
  let r1 :=
    if fld fields 3 = 0b000 then
      if fld fields 0 = 0 then
        r.setReg (fld fields 4) (r.reg (fld fields 1) + r.reg (fld fields 2))
      else if fld fields 0 = 0b0100000 then
        r.setReg (fld fields 4) (toU32 ((r.reg (fld fields 1) : Int) - r.reg (fld fields 2)))
      else r
    else r
  (SUCCESS, { r1 with m_pc := (r1.m_pc + 4) % 2 ^ 32 })

/-- `Runner::execInstruction`: dispatch on the format discriminator. -/
def execInstruction (r : Runner) (instr : Instruction) : instrState × Runner :=
  if instr.type = LUI then execLuiInstr r instr
  else if instr.type = JAL then execJalInstr r instr
  else if instr.type = JALR then execJalrInstr r instr
  else if instr.type = BRANCH then execBranchInstr r instr
  else if instr.type = LOAD then execLoadInstr r instr
  else if instr.type = STORE then execStoreInstr r instr
  else if instr.type = OP_IMM then execOpImmInstr r instr
  else if instr.type = OP then execOpInstr r instr
  else (EXEC_ERR, r)

/-- State after executing a list of fetched words one after the other with
`execInstruction` (the result codes are ignored). -/
def execWords (r : Runner) : List Nat → Runner
  | [] => r
  | word :: rest => execWords (execInstruction r (Instruction.ofWord word)).2 rest

/-! ## Fetch and run loop -/

/-- The bit slice `word[hi..lo]` (both ends included) as a number. -/
def bitSlice (word hi lo : Nat) : Nat := (word >>> lo) % 2 ^ (hi + 1 - lo)

/-- The branch condition selected by `funct3`, on the values of rs1 and rs2:
BEQ, BNE, BLT (signed), BGE (signed), BLTU, BGEU. -/
def branchCond (funct3 rs1v rs2v : Nat) : Bool :=
  if funct3 = 0b000 then decide (rs1v = rs2v)
  else if funct3 = 0b001 then decide (rs1v ≠ rs2v)
  else if funct3 = 0b100 then decide (toI32 rs1v < toI32 rs2v)
  else if funct3 = 0b101 then decide (toI32 rs1v ≥ toI32 rs2v)
  else if funct3 = 0b110 then decide (rs1v < rs2v)
  else if funct3 = 0b111 then decide (rs1v ≥ rs2v)
  else false

/-- The byte offset a branch word carries, reassembled from its four fragments:
bit 31 is offset bit 12, bits 30..25 are offset bits 10..5, bits 11..8 are offset
bits 4..1 and bit 7 is offset bit 11. -/
def branchOffset (word : Nat) : Nat :=
  bitSlice word 31 31 * 2 ^ 12 + bitSlice word 7 7 * 2 ^ 11 + bitSlice word 30 25 * 2 ^ 5 +
    bitSlice word 11 8 * 2

/-! ## Bounds-checked execution

The same handlers with every `fields[k]`, every read `m_reg[i]` and every write
`m_reg[i] = v` checked against the length of the vector: `none` as soon as one
access is out of bounds. Accesses happen where the source makes them. -/

/-- Checked `fields[k]`. -/
def fldChecked (fields : List Nat) (k : Nat) : Option Nat := fields[k]?

/-- Checked read `m_reg[i]`. -/
def Runner.regChecked (r : Runner) (i : Nat) : Option Nat := r.m_reg[i]?

/-- Checked write `m_reg[i] = v`. -/
def Runner.setRegChecked (r : Runner) (i v : Nat) : Option Runner :=
  if i < r.m_reg.length then some (r.setReg i v) else none

/-- `Runner::execLuiInstr` with checked accesses. -/
def execLuiInstrChecked (r : Runner) (instr : Instruction) : Option (instrState × Runner) := do
  let fields := decodeUInstr instr.word
  let f1 ← fldChecked fields 1
  let f0 ← fldChecked fields 0
  let r1 ← r.setRegChecked f1 (shl32 f0 12)
  pure (SUCCESS, { r1 with m_pc := (r1.m_pc + 4) % 2 ^ 32 })

/-- `Runner::execJalInstr` with checked accesses. -/
def execJalInstrChecked (r : Runner) (instr : Instruction) : Option (instrState × Runner) := do
  let fields := decodeJInstr instr.word
  let f0 ← fldChecked fields 0
  let f1 ← fldChecked fields 1
  let f2 ← fldChecked fields 2
  let f3 ← fldChecked fields 3
  let offset := shl32 f0 20 ||| shl32 f1 1 ||| shl32 f2 11 ||| shl32 f3 12
  let r1 := { r with m_pc := (r.m_pc + offset) % 2 ^ 32 }
  let f4 ← fldChecked fields 4
  let r2 ← r1.setRegChecked f4 (r1.m_pc + 4)
  pure (SUCCESS, r2)

/-- `Runner::execJalrInstr` with checked accesses. -/
def execJalrInstrChecked (r : Runner) (instr : Instruction) : Option (instrState × Runner) := do
  let fields := decodeIInstr instr.word
  let f3 ← fldChecked fields 3
  let r1 ← r.setRegChecked f3 (r.m_pc + 4)
  let f0 ← fldChecked fields 0
  let f1 ← fldChecked fields 1
  pure (SUCCESS, { r1 with m_pc := toU32 (toI32 f0 + f1) &&& 0xfffe })

/-- `Runner::execBranchInstr` with checked accesses. -/
def execBranchInstrChecked (r : Runner) (instr : Instruction) :
    Option (instrState × Runner) := do
  let fields := decodeBInstr instr.word
  let f0 ← fldChecked fields 0
  let f1 ← fldChecked fields 1
  let f5 ← fldChecked fields 5
  let f6 ← fldChecked fields 6
  let target := toU32 (r.m_pc + toI32 (shl32 f0 12 ||| shl32 f1 5 ||| shl32 f5 1 ||| shl32 f6 11))
  let next := (r.m_pc + 4) % 2 ^ 32
  let f4 ← fldChecked fields 4
  if f4 = 0b000 ∨ f4 = 0b001 ∨ f4 = 0b100 ∨ f4 = 0b101 ∨ f4 = 0b110 ∨ f4 = 0b111 then do
    let f2 ← fldChecked fields 2
    let a ← r.regChecked f2
    let f3 ← fldChecked fields 3
    let b ← r.regChecked f3
    pure (SUCCESS, { r with m_pc :=
      if f4 = 0b000 then (if a = b then target else next)
      else if f4 = 0b001 then (if a ≠ b then target else next)
      else if f4 = 0b100 then (if toI32 a > toI32 b then target else next)
      else if f4 = 0b101 then (if toI32 a ≤ toI32 b then target else next)
      else if f4 = 0b110 then (if a > b then target else next)
      else (if a ≤ b then target else next) })
  else
    pure (ERR_BFUNCT3, r)

/-- `Runner::execLoadInstr` with checked accesses. -/
def execLoadInstrChecked (r : Runner) (instr : Instruction) : Option (instrState × Runner) := do
  let fields := decodeIInstr instr.word
  let f3 ← fldChecked fields 3
  if f3 = 0 then
    pure (ERR_NULLLOAD, r)
  else do
    let f0 ← fldChecked fields 0
    let f1 ← fldChecked fields 1
    let target := toU32 (toI32 f0 + f1)
    let half := r.byte (2 * target) + 256 * r.byte (2 * target + 1)
    let full := r.byte (4 * target) + 256 * r.byte (4 * target + 1) +
      65536 * r.byte (4 * target + 2) + 16777216 * r.byte (4 * target + 3)
    let f2 ← fldChecked fields 2
    if f2 = 0b000 then do
      let r1 ← r.setRegChecked f3 (toU32 (toI8 (r.byte target)))
      pure (SUCCESS, r1)
    else if f2 = 0b001 then do
      let r1 ← r.setRegChecked f3 (toU32 (toI16 half))
      pure (SUCCESS, r1)
    else if f2 = 0b010 then do
      let r1 ← r.setRegChecked f3 full
      pure (SUCCESS, r1)
    else if f2 = 0b100 then do
      let r1 ← r.setRegChecked f3 (r.byte target)
      pure (SUCCESS, r1)
    else if f2 = 0b101 then do
      let r1 ← r.setRegChecked f3 half
      pure (SUCCESS, r1)
    else
      pure (SUCCESS, r)

/-- `Runner::execStoreInstr` with checked accesses. -/
def execStoreInstrChecked (r : Runner) (instr : Instruction) : Option (instrState × Runner) := do
  let fields := decodeSInstr instr.word
  let f0 ← fldChecked fields 0
  let f4 ← fldChecked fields 4
  let f2 ← fldChecked fields 2
  let base ← r.regChecked f2
  let target := toU32 (toI32 (shl32 f0 5 ||| f4) + base)
  let f3 ← fldChecked fields 3
  if f3 = 0b000 ∨ f3 = 0b001 ∨ f3 = 0b010 then do
    let f1 ← fldChecked fields 1
    let v ← r.regChecked f1
    if f3 = 0b000 then pure (SUCCESS, r.setByte target (v % 256))
    else if f3 = 0b001 then pure (SUCCESS, r.setByte target (v % 65536))
    else pure (SUCCESS, r.setByte target v)
  else
    pure (ERR_BFUNCT3, r)

/-- `Runner::execOpImmInstr` with checked accesses. -/
def execOpImmInstrChecked (r : Runner) (instr : Instruction) : Option (instrState × Runner) := do
  let fields := decodeIInstr instr.word
  let f3 ← fldChecked fields 3
  if f3 = 0 then
    pure (ERR_NULLLOAD, r)
  else do
    let f2 ← fldChecked fields 2
    let r1 ←
      if f2 = 0b000 ∨ f2 = 0b010 ∨ f2 = 0b011 ∨ f2 = 0b100 ∨ f2 = 0b110 ∨ f2 = 0b111 then do
        let f1 ← fldChecked fields 1
        let a ← r.regChecked f1
        let imm ← fldChecked fields 0
        if f2 = 0b000 then r.setRegChecked f3 (toU32 (a + toI32 imm))
        else if f2 = 0b010 then r.setRegChecked f3 (if toI32 a < toI32 imm then 1 else 0)
        else if f2 = 0b011 then r.setRegChecked f3 (if a < imm then 1 else 0)
        else if f2 = 0b100 then r.setRegChecked f3 (a ^^^ imm)
        else if f2 = 0b110 then r.setRegChecked f3 (a ||| imm)
        else r.setRegChecked f3 (a &&& imm)
      else pure r
    pure (SUCCESS, { r1 with m_pc := (r1.m_pc + 4) % 2 ^ 32 })

/-- `Runner::execOpInstr` with checked accesses. -/
def execOpInstrChecked (r : Runner) (instr : Instruction) : Option (instrState × Runner) := do
  let fields := decodeRInstr instr.word
  let f3 ← fldChecked fields 3
  let r1 ←
    if f3 = 0b000 then do
      let f0 ← fldChecked fields 0
      if f0 = 0 ∨ f0 = 0b0100000 then do
        let f4 ← fldChecked fields 4
        let f1 ← fldChecked fields 1
        let a ← r.regChecked f1
        let f2 ← fldChecked fields 2
        let b ← r.regChecked f2
        if f0 = 0 then r.setRegChecked f4 (a + b)
        else r.setRegChecked f4 (toU32 ((a : Int) - b))
      else pure r
    else pure r
  pure (SUCCESS, { r1 with m_pc := (r1.m_pc + 4) % 2 ^ 32 })

/-- `Runner::execInstruction` dispatching to the checked handlers. -/
def execInstructionChecked (r : Runner) (instr : Instruction) : Option (instrState × Runner) :=
  if instr.type = LUI then execLuiInstrChecked r instr
  else if instr.type = JAL then execJalInstrChecked r instr
  else if instr.type = JALR then execJalrInstrChecked r instr
  else if instr.type = BRANCH then execBranchInstrChecked r instr
  else if instr.type = LOAD then execLoadInstrChecked r instr
  else if instr.type = STORE then execStoreInstrChecked r instr
  else if instr.type = OP_IMM then execOpImmInstrChecked r instr
  else if instr.type = OP then execOpInstrChecked r instr
  else some (EXEC_ERR, r)

end Ripes

/-! # Theorems -/

namespace Ripes
open instrState

/-! ## Field decoder -/

theorem and_mask (x n : Nat) : x &&& (2 ^ n - 1) = x % 2 ^ n :=
  Nat.and_pow_two_sub_one_eq_mod x n

theorem generateBitmask_eq (n : Int) (h1 : 1 ≤ n) (h2 : n ≤ 32) :
    generateBitmask n = 2 ^ n.toNat - 1 := by
  obtain ⟨k, rfl⟩ : ∃ k : Nat, n = (k : Int) := ⟨n.toNat, by omega⟩
  have hk1 : 1 ≤ k := by omega
  have hk2 : k ≤ 32 := by omega
  interval_cases k <;> rfl

theorem toU32_small (n : Int) (h1 : 0 ≤ n) (h2 : n ≤ 32) : toU32 n = n.toNat := by
  unfold toU32
  congr 1
  exact Int.emod_eq_of_lt h1 (by omega)

theorem wordParserLoop_eq (ws : List Int) (h : ∀ w ∈ ws, 1 ≤ w ∧ w ≤ 32) (x : Nat)
    (acc : List Nat) :
    wordParserLoop (parseVector ws) x acc = (fieldSlices ws x).reverse ++ acc := by
  induction ws generalizing x acc with
  | nil => simp [parseVector, wordParserLoop, fieldSlices]
  | cons w ws ih =>
    have hw := h w (List.mem_cons_self _ _)
    have ih2 := ih (fun v hv => h v (List.mem_cons_of_mem _ hv))
    simp only [parseVector, List.map_cons, wordParserLoop, fieldSlices, List.reverse_cons,
      List.append_assoc, List.singleton_append] at ih2 ⊢
    rw [generateBitmask_eq w hw.1 hw.2, toU32_small w (by omega) hw.2, and_mask,
      Nat.shiftRight_eq_div_pow]
    exact ih2 _ _

theorem fieldSlices_length (ws : List Int) (x : Nat) :
    (fieldSlices ws x).length = ws.length := by
  induction ws generalizing x with
  | nil => rfl
  | cons w ws ih => simp [fieldSlices, ih]

theorem fieldSlices_get (ws : List Int) (x j : Nat) (hj : j < ws.length) :
    (fieldSlices ws x)[j]? =
      some ((x >>> ((ws.take j).map Int.toNat).sum) % 2 ^ (ws.getD j 0).toNat) := by
  induction ws generalizing x j with
  | nil => simp at hj
  | cons w ws ih =>
    cases j with
    | zero => simp [fieldSlices]
    | succ j =>
      have hj2 : j < ws.length := by simpa using hj
      simp only [fieldSlices, List.getElem?_cons_succ, List.take_succ_cons, List.map_cons,
        List.sum_cons, List.getD_cons_succ]
      rw [ih _ _ hj2, Nat.shiftRight_add, Nat.shiftRight_eq_div_pow x]

theorem fieldSlices_pack (ws : List Int) (vals : List Nat) (h : FieldsFit ws vals) :
    fieldSlices ws (packFields ws vals) = vals := by
  induction ws generalizing vals with
  | nil =>
    cases vals with
    | nil => rfl
    | cons v vs => simp [FieldsFit] at h
  | cons w ws ih =>
    cases vals with
    | nil => simp [FieldsFit] at h
    | cons v vs =>
      obtain ⟨hv, hrest⟩ := h
      have hpos : 0 < 2 ^ w.toNat := Nat.pow_pos (by decide)
      simp only [fieldSlices, packFields]
      rw [Nat.add_mul_mod_self_left, Nat.mod_eq_of_lt hv, Nat.add_mul_div_left _ _ hpos,
        Nat.div_eq_of_lt hv, Nat.zero_add, ih vs hrest]

theorem sumFields_eq (tot : Int) (ws : List Int) (h : SumInRange tot ws) :
    sumFields tot ws = tot + ws.sum := by
  induction ws generalizing tot with
  | nil => simp [sumFields]
  | cons w ws ih =>
    obtain ⟨hr, hrest⟩ := h
    have hwrap : wrapInt (tot + w) = tot + w := by
      unfold wrapInt
      rw [Int.emod_eq_of_lt (by omega) (by omega)]
      omega
    simp only [sumFields, hwrap, List.sum_cons]
    rw [ih _ hrest]
    omega

theorem sumInRange_of_nonneg (tot : Int) (ws : List Int) (h0 : 0 ≤ tot)
    (hpos : ∀ w ∈ ws, 0 ≤ w) (hs : tot + ws.sum < 2 ^ 31) : SumInRange tot ws := by
  induction ws generalizing tot with
  | nil => trivial
  | cons w ws ih =>
    have hw := hpos w (List.mem_cons_self _ _)
    have hrest : ∀ v ∈ ws, 0 ≤ v := fun v hv => hpos v (List.mem_cons_of_mem _ hv)
    have hsum : 0 ≤ ws.sum := List.sum_nonneg hrest
    simp only [List.sum_cons] at hs
    refine ⟨⟨by omega, by omega⟩, ih _ (by omega) hrest (by omega)⟩

theorem le_sum_of_mem (ws : List Int) (hpos : ∀ w ∈ ws, 0 ≤ w) (w : Int) (hw : w ∈ ws) :
    w ≤ ws.sum := by
  induction ws with
  | nil => simp at hw
  | cons v vs ih =>
    have hv := hpos v (List.mem_cons_self _ _)
    have hrest : ∀ u ∈ vs, 0 ≤ u := fun u hu => hpos u (List.mem_cons_of_mem _ hu)
    have hsum : 0 ≤ vs.sum := List.sum_nonneg hrest
    simp only [List.sum_cons]
    rcases List.mem_cons.mp hw with rfl | h
    · omega
    · have := ih hrest h
      omega

theorem shift_encodeWord (layout : List Int) (vals : List Nat) (opcode : Nat)
    (h : opcode < 128) : encodeWord layout vals opcode >>> 7 = packFields layout vals := by
  unfold encodeWord
  rw [Nat.shiftRight_eq_div_pow, Nat.add_mul_div_left _ _ (by decide),
    Nat.div_eq_of_lt (by simpa using h), Nat.zero_add]

theorem packFields_lt (ws : List Int) (vals : List Nat) (h : FieldsFit ws vals) :
    packFields ws vals < 2 ^ (ws.map Int.toNat).sum := by
  induction ws generalizing vals with
  | nil =>
    cases vals with
    | nil => simp [packFields]
    | cons v vs => simp [FieldsFit] at h
  | cons w ws ih =>
    cases vals with
    | nil => simp [FieldsFit] at h
    | cons v vs =>
      obtain ⟨hv, hrest⟩ := h
      have h2 := ih vs hrest
      simp only [packFields, List.map_cons, List.sum_cons, pow_add]
      have h3 : 2 ^ w.toNat * (packFields ws vs + 1) ≤
          2 ^ w.toNat * 2 ^ (ws.map Int.toNat).sum := Nat.mul_le_mul_left _ h2
      rw [Nat.mul_add, Nat.mul_one] at h3
      omega

theorem mkDecoder_formats (fmt : List Int × (Nat → List Nat)) (hf : fmt ∈ formats) :
    generateWordParser fmt.1 = some (wordParser (parseVector fmt.1)) ∧
    fmt.2 = wordParser (parseVector fmt.1) ∧
    (∀ w ∈ fmt.1, 1 ≤ w ∧ w ≤ 32) ∧ (fmt.1.map Int.toNat).sum = 25 := by
  simp only [formats, List.mem_cons, List.mem_singleton, List.not_mem_nil, or_false] at hf
  rcases hf with rfl | rfl | rfl | rfl | rfl | rfl <;>
    exact ⟨rfl, rfl, by decide, by decide⟩

/-- C1: for each of the six layouts built in the constructor (R, I, S, B, U, J) and
every tuple of field values that fit their widths, the word packed from the values
(first-listed width lowest, from bit 7, with a 7-bit opcode below) is a 32-bit word
and the format decoder returns exactly those values, most-significant field first. -/
theorem decoder_round_trip (fmt : List Int × (Nat → List Nat)) (hf : fmt ∈ formats)
    (vals : List Nat) (opcode : Nat) (hop : opcode < 128) (hv : FieldsFit fmt.1 vals) :
    encodeWord fmt.1 vals opcode < 2 ^ 32 ∧
      fmt.2 (encodeWord fmt.1 vals opcode) = vals.reverse := by
  obtain ⟨_, hdec, hw, hs⟩ := mkDecoder_formats fmt hf
  constructor
  · have hp := packFields_lt fmt.1 vals hv
    rw [hs] at hp
    unfold encodeWord
    omega
  · rw [hdec]
    unfold wordParser
    rw [wordParserLoop_eq _ hw, shift_encodeWord _ _ _ hop, fieldSlices_pack _ _ hv,
      List.append_nil]

theorem decoder_round_trip_witness :
    FieldsFit layoutB [1, 15, 7, 31, 0, 63, 1] ∧
      decodeBInstr (encodeWord layoutB [1, 15, 7, 31, 0, 63, 1] 0x63) =
        [1, 63, 0, 31, 7, 15, 1] :=
  have hv : FieldsFit layoutB [1, 15, 7, 31, 0, 63, 1] := by
    simp [FieldsFit, layoutB]
  ⟨hv, (decoder_round_trip (layoutB, decodeBInstr) (by simp [formats])
    [1, 15, 7, 31, 0, 63, 1] 0x63 (by decide) hv).2⟩

/-- C2 (counterexample): the widths [2147483647, 2147483647, 27] sum to
4294967321, not to 25, yet the 32-bit `int` accumulator of `generateWordParser`
wraps around to 25, so the assertion passes and a decoder is built. -/
theorem generateWordParser_overflow_counterexample :
    (generateWordParser [2147483647, 2147483647, 27]).isSome = true ∧
      ([2147483647, 2147483647, 27] : List Int).sum ≠ 25 := by
  constructor
  · rfl
  · decide

/-- C2 (amended): for every list of field widths whose running total stays within
the range of a 32-bit `int`, `generateWordParser` passes its assertion if and only
if the widths sum to exactly 25; widths [5,3,5,5,6] (sum 24) fail, and each of the
six layouts of the constructor succeeds and yields the stored decoder. -/
theorem generateWordParser_succeeds_iff (bitFields : List Int)
    (h : SumInRange 0 bitFields) :
    ((generateWordParser bitFields).isSome = true ↔ bitFields.sum = 25) ∧
      generateWordParser [5, 3, 5, 5, 6] = none ∧
      ∀ fmt ∈ formats, generateWordParser fmt.1 = some fmt.2 := by
  refine ⟨?_, rfl, ?_⟩
  · unfold generateWordParser
    rw [sumFields_eq 0 bitFields h, Int.zero_add]
    by_cases hs : bitFields.sum = 25 <;> simp [hs]
  · intro fmt hf
    obtain ⟨h1, h2, _, _⟩ := mkDecoder_formats fmt hf
    rw [h1, h2]

theorem generateWordParser_succeeds_iff_witness :
    SumInRange 0 [1, 4, 3, 5, 5, 6, 1] ∧
      ((generateWordParser [1, 4, 3, 5, 5, 6, 1]).isSome = true ↔
        ([1, 4, 3, 5, 5, 6, 1] : List Int).sum = 25) :=
  have hr : SumInRange 0 [1, 4, 3, 5, 5, 6, 1] := by
    simp [SumInRange]
  ⟨hr, (generateWordParser_succeeds_iff [1, 4, 3, 5, 5, 6, 1] hr).1⟩

/-- C3: for every layout of positive widths summing to 25 and every 32-bit word,
construction succeeds, the decoder returns exactly as many values as there are
widths, and the value at output position `k-1-j` is
`(word >> (7 + w_0 + ... + w_(j-1))) mod 2^(w_j)`: the field nearest the
most-significant bit comes first, the field just above the opcode comes last. -/
theorem decoder_extraction_order (layout : List Int) (hpos : ∀ w ∈ layout, 0 < w)
    (hsum : layout.sum = 25) (word : Nat) (_hword : word < 2 ^ 32) :
    ∃ f, generateWordParser layout = some f ∧ (f word).length = layout.length ∧
      ∀ j, j < layout.length →
        (f word)[layout.length - 1 - j]? =
          some ((word >>> fieldOffset layout j) % 2 ^ (layout.getD j 0).toNat) := by
  have hnn : ∀ w ∈ layout, 0 ≤ w := fun w hw => le_of_lt (hpos w hw)
  have hr : SumInRange 0 layout := sumInRange_of_nonneg 0 layout le_rfl hnn (by omega)
  have hw : ∀ w ∈ layout, 1 ≤ w ∧ w ≤ 32 := fun w hw =>
    ⟨hpos w hw, by have := le_sum_of_mem layout hnn w hw; omega⟩
  have hf : ∀ x, wordParser (parseVector layout) x = (fieldSlices layout (x >>> 7)).reverse := by
    intro x
    unfold wordParser
    rw [wordParserLoop_eq _ hw, List.append_nil]
  refine ⟨wordParser (parseVector layout), ?_, ?_, ?_⟩
  · unfold generateWordParser
    rw [sumFields_eq 0 layout hr, Int.zero_add, if_pos hsum]
  · rw [hf, List.length_reverse, fieldSlices_length]
  · intro j hj
    have hlen := fieldSlices_length layout (word >>> 7)
    rw [hf, List.getElem?_reverse (by omega), hlen]
    have hidx : layout.length - 1 - (layout.length - 1 - j) = j := by omega
    rw [hidx, fieldSlices_get _ _ _ hj, ← Nat.shiftRight_add]
    rfl

theorem decoder_extraction_order_witness :
    ∃ f, generateWordParser [5, 20] = some f ∧ (f 0x123450B7).length = 2 ∧
      ∀ j, j < 2 →
        (f 0x123450B7)[2 - 1 - j]? =
          some ((0x123450B7 >>> fieldOffset [5, 20] j) % 2 ^ (([5, 20] : List Int).getD j 0).toNat) :=
  decoder_extraction_order [5, 20] (by decide) (by decide) 0x123450B7 (by decide)

/-! ## Closed forms of the six decoders -/

theorem decoder_eq_slices (fmt : List Int × (Nat → List Nat)) (hf : fmt ∈ formats)
    (word : Nat) : fmt.2 word = (fieldSlices fmt.1 (word >>> 7)).reverse := by
  obtain ⟨_, hdec, hw, _⟩ := mkDecoder_formats fmt hf
  rw [hdec]
  unfold wordParser
  rw [wordParserLoop_eq _ hw, List.append_nil]

theorem decodeRInstr_eq (w : Nat) :
    decodeRInstr w =
      [w / 2 ^ 25 % 128, w / 2 ^ 20 % 32, w / 2 ^ 15 % 32, w / 2 ^ 12 % 8, w / 2 ^ 7 % 32] := by
  have h := decoder_eq_slices (layoutR, decodeRInstr) (by simp [formats]) w
  simpa [fieldSlices, layoutR, Nat.shiftRight_eq_div_pow, Nat.div_div_eq_div_mul] using h

theorem decodeIInstr_eq (w : Nat) :
    decodeIInstr w = [w / 2 ^ 20 % 4096, w / 2 ^ 15 % 32, w / 2 ^ 12 % 8, w / 2 ^ 7 % 32] := by
  have h := decoder_eq_slices (layoutI, decodeIInstr) (by simp [formats]) w
  simpa [fieldSlices, layoutI, Nat.shiftRight_eq_div_pow, Nat.div_div_eq_div_mul] using h

theorem decodeSInstr_eq (w : Nat) :
    decodeSInstr w =
      [w / 2 ^ 25 % 128, w / 2 ^ 20 % 32, w / 2 ^ 15 % 32, w / 2 ^ 12 % 8, w / 2 ^ 7 % 32] := by
  have h := decoder_eq_slices (layoutS, decodeSInstr) (by simp [formats]) w
  simpa [fieldSlices, layoutS, Nat.shiftRight_eq_div_pow, Nat.div_div_eq_div_mul] using h

theorem decodeBInstr_eq (w : Nat) :
    decodeBInstr w =
      [w / 2 ^ 31 % 2, w / 2 ^ 25 % 64, w / 2 ^ 20 % 32, w / 2 ^ 15 % 32, w / 2 ^ 12 % 8,
        w / 2 ^ 8 % 16, w / 2 ^ 7 % 2] := by
  have h := decoder_eq_slices (layoutB, decodeBInstr) (by simp [formats]) w
  simpa [fieldSlices, layoutB, Nat.shiftRight_eq_div_pow, Nat.div_div_eq_div_mul] using h

theorem decodeUInstr_eq (w : Nat) :
    decodeUInstr w = [w / 2 ^ 12 % 2 ^ 20, w / 2 ^ 7 % 32] := by
  have h := decoder_eq_slices (layoutU, decodeUInstr) (by simp [formats]) w
  simpa [fieldSlices, layoutU, Nat.shiftRight_eq_div_pow, Nat.div_div_eq_div_mul] using h

theorem decodeJInstr_eq (w : Nat) :
    decodeJInstr w =
      [w / 2 ^ 31 % 2, w / 2 ^ 21 % 1024, w / 2 ^ 20 % 2, w / 2 ^ 12 % 256, w / 2 ^ 7 % 32] := by
  have h := decoder_eq_slices (layoutJ, decodeJInstr) (by simp [formats]) w
  simpa [fieldSlices, layoutJ, Nat.shiftRight_eq_div_pow, Nat.div_div_eq_div_mul] using h

theorem ofWord_type (word : Nat) : (Instruction.ofWord word).type = word % 128 := by
  have h : (0x7f : Nat) = 2 ^ 7 - 1 := by decide
  simp only [Instruction.ofWord]
  rw [h, and_mask]
  rfl

theorem and_upper20 (x : Nat) : x &&& 0xFFFFF000 = (x / 2 ^ 12 % 2 ^ 20) * 2 ^ 12 := by
  have h : (0xFFFFF000 : Nat) = (2 ^ 20 - 1) <<< 12 := by decide
  have h2 : (x / 2 ^ 12 % 2 ^ 20) * 2 ^ 12 = ((x >>> 12) &&& (2 ^ 20 - 1)) <<< 12 := by
    rw [and_mask, Nat.shiftLeft_eq, Nat.shiftRight_eq_div_pow]
  rw [h, h2]
  apply Nat.eq_of_testBit_eq
  intro i
  simp only [Nat.testBit_and, Nat.testBit_shiftLeft, Nat.testBit_shiftRight]
  by_cases hi : 12 ≤ i
  · simp [hi]
  · simp [hi]

/-! ## Execution engine -/

theorem execBranchInstr_fail (r : Runner) (instr : Instruction)
    (h : (execBranchInstr r instr).1 ≠ SUCCESS) : (execBranchInstr r instr).2 = r := by
  unfold execBranchInstr at h ⊢
  simp only at h ⊢
  split_ifs at h ⊢ <;> simp_all

theorem execLoadInstr_fail (r : Runner) (instr : Instruction)
    (h : (execLoadInstr r instr).1 ≠ SUCCESS) : (execLoadInstr r instr).2 = r := by
  unfold execLoadInstr at h ⊢
  simp only at h ⊢
  split_ifs at h ⊢ <;> simp_all

theorem execStoreInstr_fail (r : Runner) (instr : Instruction)
    (h : (execStoreInstr r instr).1 ≠ SUCCESS) : (execStoreInstr r instr).2 = r := by
  unfold execStoreInstr at h ⊢
  simp only at h ⊢
  split_ifs at h ⊢ <;> simp_all

theorem execOpImmInstr_fail (r : Runner) (instr : Instruction)
    (h : (execOpImmInstr r instr).1 ≠ SUCCESS) : (execOpImmInstr r instr).2 = r := by
  unfold execOpImmInstr at h ⊢
  simp only at h ⊢
  split_ifs at h ⊢ <;> simp_all

/-- C5: for every architectural state and every instruction, if `execInstruction`
returns a result other than SUCCESS then the whole state (register file, program
counter, memory) is exactly what it was before the call. -/
theorem failure_atomicity (r : Runner) (instr : Instruction)
    (h : (execInstruction r instr).1 ≠ SUCCESS) :
    (execInstruction r instr).2 = r ∧
      (execInstruction r instr).2.m_reg = r.m_reg ∧
      (execInstruction r instr).2.m_pc = r.m_pc ∧
      (execInstruction r instr).2.m_mem = r.m_mem := by
  have key : (execInstruction r instr).2 = r := by
    unfold execInstruction at h ⊢
    split_ifs at h ⊢
    · exact absurd rfl h
    · exact absurd rfl h
    · exact absurd rfl h
    · exact execBranchInstr_fail r instr h
    · exact execLoadInstr_fail r instr h
    · exact execStoreInstr_fail r instr h
    · exact execOpImmInstr_fail r instr h
    · exact absurd rfl h
    · rfl
  rw [key]
  exact ⟨rfl, rfl, rfl, rfl⟩

theorem failure_atomicity_witness :
    (execInstruction (Runner.init [] (fun _ => 0)) (Instruction.ofWord 0x00003023)).1 ≠ SUCCESS ∧
      (execInstruction (Runner.init [] (fun _ => 0)) (Instruction.ofWord 0x00003023)).2 =
        Runner.init [] (fun _ => 0) :=
  ⟨by decide, (failure_atomicity (Runner.init [] (fun _ => 0)) (Instruction.ofWord 0x00003023)
    (by decide)).1⟩

theorem ofWord_word (word : Nat) : (Instruction.ofWord word).word = word := rfl

theorem execInstruction_branch (r : Runner) (word : Nat) (h : word % 128 = BRANCH) :
    execInstruction r (Instruction.ofWord word) = execBranchInstr r (Instruction.ofWord word) := by
  unfold execInstruction
  rw [ofWord_type, h]
  rfl

theorem execInstruction_load (r : Runner) (word : Nat) (h : word % 128 = LOAD) :
    execInstruction r (Instruction.ofWord word) = execLoadInstr r (Instruction.ofWord word) := by
  unfold execInstruction
  rw [ofWord_type, h]
  rfl

theorem execInstruction_store (r : Runner) (word : Nat) (h : word % 128 = STORE) :
    execInstruction r (Instruction.ofWord word) = execStoreInstr r (Instruction.ofWord word) := by
  unfold execInstruction
  rw [ofWord_type, h]
  rfl

theorem execInstruction_opImm (r : Runner) (word : Nat) (h : word % 128 = OP_IMM) :
    execInstruction r (Instruction.ofWord word) = execOpImmInstr r (Instruction.ofWord word) := by
  unfold execInstruction
  rw [ofWord_type, h]
  rfl

theorem execInstruction_lui (r : Runner) (word : Nat) (h : word % 128 = LUI) :
    execInstruction r (Instruction.ofWord word) = execLuiInstr r (Instruction.ofWord word) := by
  unfold execInstruction
  rw [ofWord_type, h]
  rfl

/-- C6: `execInstruction` returns EXEC_ERR for every word whose low 7 bits are none
of the eight handled opcode classes, ERR_BFUNCT3 for every branch word whose funct3
is 010 or 011 and every store word whose funct3 is not 000, 001 or 010, and
ERR_NULLLOAD for every load or immediate-arithmetic word whose rd field (bits
11..7) is 0. -/
theorem malformed_rejected (r : Runner) (word : Nat) :
    (word % 128 ∉ [LUI, JAL, JALR, BRANCH, LOAD, STORE, OP_IMM, OP] →
      (execInstruction r (Instruction.ofWord word)).1 = EXEC_ERR) ∧
    (word % 128 = BRANCH → (word / 2 ^ 12 % 8 = 0b010 ∨ word / 2 ^ 12 % 8 = 0b011) →
      (execInstruction r (Instruction.ofWord word)).1 = ERR_BFUNCT3) ∧
    (word % 128 = STORE → word / 2 ^ 12 % 8 ∉ [0b000, 0b001, 0b010] →
      (execInstruction r (Instruction.ofWord word)).1 = ERR_BFUNCT3) ∧
    ((word % 128 = LOAD ∨ word % 128 = OP_IMM) → word / 2 ^ 7 % 32 = 0 →
      (execInstruction r (Instruction.ofWord word)).1 = ERR_NULLLOAD) := by
  refine ⟨?_, ?_, ?_, ?_⟩
  · intro h
    simp only [List.mem_cons, List.mem_singleton, List.not_mem_nil, or_false, not_or] at h
    obtain ⟨h1, h2, h3, h4, h5, h6, h7, h8⟩ := h
    unfold execInstruction
    rw [ofWord_type, if_neg h1, if_neg h2, if_neg h3, if_neg h4, if_neg h5, if_neg h6,
      if_neg h7, if_neg h8]
  · intro hop hf
    rw [execInstruction_branch r word hop]
    unfold execBranchInstr
    simp only [ofWord_word, decodeBInstr_eq, fld, List.getD_cons_succ, List.getD_cons_zero]
    have hf2 : word / 4096 % 8 = 2 ∨ word / 4096 % 8 = 3 := hf
    rcases hf2 with hf2 | hf2 <;> simp [hf2]
  · intro hop hf
    simp only [List.mem_cons, List.mem_singleton, List.not_mem_nil, or_false, not_or] at hf
    obtain ⟨h0, h1, h2⟩ := hf
    rw [execInstruction_store r word hop]
    unfold execStoreInstr
    simp only [ofWord_word, decodeSInstr_eq, fld, List.getD_cons_succ, List.getD_cons_zero]
    rw [if_neg h0, if_neg h1, if_neg h2]
  · intro hop hrd
    rcases hop with hop | hop
    · rw [execInstruction_load r word hop]
      unfold execLoadInstr
      simp only [ofWord_word, decodeIInstr_eq, fld, List.getD_cons_succ, List.getD_cons_zero]
      rw [if_pos hrd]
    · rw [execInstruction_opImm r word hop]
      unfold execOpImmInstr
      simp only [ofWord_word, decodeIInstr_eq, fld, List.getD_cons_succ, List.getD_cons_zero]
      rw [if_pos hrd]

theorem malformed_rejected_witness :
    (execInstruction (Runner.init [] (fun _ => 0)) (Instruction.ofWord 0x0000007f)).1 = EXEC_ERR ∧
    (execInstruction (Runner.init [] (fun _ => 0)) (Instruction.ofWord 0x00002063)).1
      = ERR_BFUNCT3 ∧
    (execInstruction (Runner.init [] (fun _ => 0)) (Instruction.ofWord 0x00003023)).1
      = ERR_BFUNCT3 ∧
    (execInstruction (Runner.init [] (fun _ => 0)) (Instruction.ofWord 0x00000013)).1
      = ERR_NULLLOAD :=
  ⟨(malformed_rejected (Runner.init [] (fun _ => 0)) 0x0000007f).1 (by decide),
   (malformed_rejected (Runner.init [] (fun _ => 0)) 0x00002063).2.1 (by decide) (by decide),
   (malformed_rejected (Runner.init [] (fun _ => 0)) 0x00003023).2.2.1 (by decide) (by decide),
   (malformed_rejected (Runner.init [] (fun _ => 0)) 0x00000013).2.2.2 (by decide) (by decide)⟩

/-- C4 (evaluation of the code at the failing input): from the constructor state,
where register 0 holds 0, the single step `lui x0, 0x12345` succeeds and leaves
0x12345000 in register 0. -/
theorem zero_register_overwritten_by_lui :
    (Runner.init [] (fun _ => 0)).reg 0 = 0 ∧
      (execInstruction (Runner.init [] (fun _ => 0)) (Instruction.ofWord 0x12345037)).1
        = SUCCESS ∧
      (execWords (Runner.init [] (fun _ => 0)) [0x12345037]).reg 0 = 0x12345000 := by
  decide

theorem lui_value (w : Nat) : shl32 (w / 2 ^ 12 % 2 ^ 20) 12 % 2 ^ 32 = w &&& 0xFFFFF000 := by
  rw [and_upper20]
  unfold shl32
  rw [Nat.shiftLeft_eq]
  have h : w / 2 ^ 12 % 2 ^ 20 < 2 ^ 20 := Nat.mod_lt _ (by decide)
  norm_num at h ⊢
  omega

/-- C7: for every state and every 32-bit word with the LUI opcode, `execInstruction`
returns SUCCESS, sets register rd (bits 11..7) to `word & 0xFFFFF000`, which is the
20-bit immediate shifted left by 12, leaves every other register and all of memory
unchanged, and sets PC to PC + 4 modulo 2^32. -/
theorem lui_semantics (r : Runner) (word : Nat) (hw : word < 2 ^ 32)
    (hop : word % 128 = LUI) :
    (execInstruction r (Instruction.ofWord word)).1 = SUCCESS ∧
      (execInstruction r (Instruction.ofWord word)).2.m_reg =
        r.m_reg.set (word / 2 ^ 7 % 32) (word &&& 0xFFFFF000) ∧
      word &&& 0xFFFFF000 = (word / 2 ^ 12) <<< 12 ∧
      (r.m_reg.length = 32 →
        (execInstruction r (Instruction.ofWord word)).2.reg (word / 2 ^ 7 % 32) =
          word &&& 0xFFFFF000) ∧
      (∀ i, i ≠ word / 2 ^ 7 % 32 →
        (execInstruction r (Instruction.ofWord word)).2.reg i = r.reg i) ∧
      (execInstruction r (Instruction.ofWord word)).2.m_mem = r.m_mem ∧
      (execInstruction r (Instruction.ofWord word)).2.m_pc = (r.m_pc + 4) % 2 ^ 32 := by
  have hreg : (execInstruction r (Instruction.ofWord word)).2.m_reg =
      r.m_reg.set (word / 2 ^ 7 % 32) (word &&& 0xFFFFF000) := by
    rw [execInstruction_lui r word hop]
    unfold execLuiInstr
    simp only [ofWord_word, decodeUInstr_eq, fld, List.getD_cons_succ, List.getD_cons_zero,
      Runner.setReg, lui_value]
  have hrd : word / 2 ^ 7 % 32 < 32 := Nat.mod_lt _ (by decide)
  refine ⟨?_, hreg, ?_, ?_, ?_, ?_, ?_⟩
  · rw [execInstruction_lui r word hop]
    rfl
  · rw [and_upper20, Nat.shiftLeft_eq, Nat.mod_eq_of_lt]
    rw [Nat.div_lt_iff_lt_mul (by decide)]
    exact hw
  · intro hlen
    unfold Runner.reg
    rw [hreg, List.getD_eq_getElem?_getD, List.getElem?_set_self (by omega)]
    rfl
  · intro i hi
    unfold Runner.reg
    rw [hreg, List.getD_eq_getElem?_getD, List.getD_eq_getElem?_getD,
      List.getElem?_set_ne (Ne.symm hi)]
  · rw [execInstruction_lui r word hop]
    rfl
  · rw [execInstruction_lui r word hop]
    rfl

theorem lui_semantics_witness :
    (0x123450B7 / 2 ^ 12 = 0x12345 ∧ 0x123450B7 / 2 ^ 7 % 32 = 1) ∧
      (execInstruction (Runner.init [] (fun _ => 0)) (Instruction.ofWord 0x123450B7)).2.reg 1 =
        0x12345000 ∧
      (execInstruction (Runner.init [] (fun _ => 0)) (Instruction.ofWord 0x123450B7)).2.m_pc = 4 :=
  have h := lui_semantics (Runner.init [] (fun _ => 0)) 0x123450B7 (by decide) (by decide)
  ⟨by decide, h.2.2.2.1 (by decide), h.2.2.2.2.2.2⟩

/-- C8 (evaluation of the code at the failing input): from PC = 0 the word
`jal x1, +8` succeeds and sets PC to 8, but the link register x1 receives 12 (the
updated PC plus 4), not 4. -/
theorem jal_links_after_jump :
    (Runner.init [] (fun _ => 0)).m_pc = 0 ∧
      (execInstruction (Runner.init [] (fun _ => 0)) (Instruction.ofWord 0x008000EF)).1
        = SUCCESS ∧
      (execInstruction (Runner.init [] (fun _ => 0)) (Instruction.ofWord 0x008000EF)).2.m_pc = 8 ∧
      (execInstruction (Runner.init [] (fun _ => 0)) (Instruction.ofWord 0x008000EF)).2.reg 1
        = 12 := by
  decide

/-- C9 (evaluation of the code at the failing input): from PC = 8 the word
`jal x0, -4` moves the PC to 8 + 0x1FFFFC = 0x200004 and the taken branch
`beq x0, x0, -4` moves it to 8 + 0x1FFC = 0x2004; neither offset is
sign-extended, so the PC does not move back to 4. -/
theorem control_transfer_offset_unsigned :
    (execInstruction { Runner.init [] (fun _ => 0) with m_pc := 8 }
        (Instruction.ofWord 0xFFDFF06F)).2.m_pc = 0x200004 ∧
      (execInstruction { Runner.init [] (fun _ => 0) with m_pc := 8 }
        (Instruction.ofWord 0xFE000EE3)).2.m_pc = 0x2004 := by
  decide

/-- C10 (evaluation of the code at the failing input): with register x1 holding
0x20000, the word `jalr x5, 0(x1)` stores PC + 4 = 4 in x5 but sets PC to
`(0 + 1) & 0xfffe = 0`: the target is computed from the register index and the
zero-extended immediate, not from the value held by x1. -/
theorem jalr_target_ignores_register_value :
    ((Runner.init [] (fun _ => 0)).setReg 1 0x20000).reg 1 = 0x20000 ∧
      (execInstruction ((Runner.init [] (fun _ => 0)).setReg 1 0x20000)
        (Instruction.ofWord 0x000082E7)).2.reg 5 = 4 ∧
      (execInstruction ((Runner.init [] (fun _ => 0)).setReg 1 0x20000)
        (Instruction.ofWord 0x000082E7)).2.m_pc = 0 := by
  decide

/-! ## Branches -/

theorem toU32_natCast (n : Nat) : toU32 (n : Int) = n % 2 ^ 32 := by
  unfold toU32
  have h : ((n : Int) % 2 ^ 32) = ((n % 2 ^ 32 : Nat) : Int) := by
    push_cast
    rfl
  rw [h, Int.toNat_ofNat]

theorem toI32_small (n : Nat) (h : n < 2 ^ 31) : toI32 n = (n : Int) := by
  unfold toI32
  have h2 : n % 2 ^ 32 = n := Nat.mod_eq_of_lt (by omega)
  rw [h2, if_pos h]

theorem branch_offset_or (a b c d : Nat) (ha : a < 2) (hb : b < 64) (hc : c < 16)
    (hd : d < 2) :
    shl32 a 12 ||| shl32 b 5 ||| shl32 c 1 ||| shl32 d 11 =
      a * 2 ^ 12 + d * 2 ^ 11 + b * 2 ^ 5 + c * 2 := by
  have e1 : shl32 a 12 = 2 ^ 12 * a := by
    unfold shl32; rw [Nat.shiftLeft_eq, Nat.mod_eq_of_lt (by omega)]; ring
  have e2 : shl32 b 5 = 2 ^ 5 * b := by
    unfold shl32; rw [Nat.shiftLeft_eq, Nat.mod_eq_of_lt (by omega)]; ring
  have e3 : shl32 c 1 = c * 2 := by
    unfold shl32; rw [Nat.shiftLeft_eq, Nat.mod_eq_of_lt (by omega)]
  have e4 : shl32 d 11 = 2 ^ 11 * d := by
    unfold shl32; rw [Nat.shiftLeft_eq, Nat.mod_eq_of_lt (by omega)]; ring
  have s1 : 2 ^ 5 * b + c * 2 = 2 ^ 5 * b ||| c * 2 := Nat.mul_add_lt_is_or (by omega) b
  have s2 : 2 ^ 11 * d + (2 ^ 5 * b + c * 2) = 2 ^ 11 * d ||| (2 ^ 5 * b + c * 2) :=
    Nat.mul_add_lt_is_or (by omega) d
  have s3 : 2 ^ 12 * a + (2 ^ 11 * d + (2 ^ 5 * b + c * 2)) =
      2 ^ 12 * a ||| (2 ^ 11 * d + (2 ^ 5 * b + c * 2)) :=
    Nat.mul_add_lt_is_or (by omega) a
  have e : a * 2 ^ 12 + d * 2 ^ 11 + b * 2 ^ 5 + c * 2 =
      2 ^ 12 * a + (2 ^ 11 * d + (2 ^ 5 * b + c * 2)) := by ring
  rw [e, s3, s2, s1, e1, e2, e3, e4]
  simp only [Nat.or_assoc]
  congr 1
  rw [Nat.or_comm (2 ^ 11 * d), Nat.or_assoc]

theorem branch_target_eq (pc w : Nat) :
    toU32 (pc + toI32 (shl32 (w / 2 ^ 31 % 2) 12 ||| shl32 (w / 2 ^ 25 % 64) 5 |||
      shl32 (w / 2 ^ 8 % 16) 1 ||| shl32 (w / 2 ^ 7 % 2) 11)) =
      (pc + branchOffset w) % 2 ^ 32 := by
  have ha : w / 2 ^ 31 % 2 < 2 := Nat.mod_lt _ (by decide)
  have hb : w / 2 ^ 25 % 64 < 64 := Nat.mod_lt _ (by decide)
  have hc : w / 2 ^ 8 % 16 < 16 := Nat.mod_lt _ (by decide)
  have hd : w / 2 ^ 7 % 2 < 2 := Nat.mod_lt _ (by decide)
  have hoff : branchOffset w =
      w / 2 ^ 31 % 2 * 2 ^ 12 + w / 2 ^ 7 % 2 * 2 ^ 11 + w / 2 ^ 25 % 64 * 2 ^ 5 +
        w / 2 ^ 8 % 16 * 2 := by
    simp [branchOffset, bitSlice, Nat.shiftRight_eq_div_pow]
  rw [branch_offset_or _ _ _ _ ha hb hc hd, hoff, toI32_small _ (by norm_num at ha hb hc hd ⊢; omega)]
  rw [← Nat.cast_add, toU32_natCast]

/-- C11: for every state and every branch word with funct3 in
{000, 001, 100, 101, 110, 111}, `execInstruction` returns SUCCESS, changes no
register and no memory, and sets PC to the target (PC plus the offset reassembled
from the word, modulo 2^32) exactly when the condition on rs1_value (register named
by bits 19..15) and rs2_value (register named by bits 24..20) holds, and to PC + 4
otherwise: BEQ equal, BNE not equal, BLT and BGE signed, BLTU and BGEU unsigned. -/
theorem branch_conditions (r : Runner) (word : Nat) (hop : word % 128 = BRANCH)
    (hf : word / 2 ^ 12 % 8 ∈ [0b000, 0b001, 0b100, 0b101, 0b110, 0b111]) :
    (execInstruction r (Instruction.ofWord word)).1 = SUCCESS ∧
      (execInstruction r (Instruction.ofWord word)).2.m_reg = r.m_reg ∧
      (execInstruction r (Instruction.ofWord word)).2.m_mem = r.m_mem ∧
      (execInstruction r (Instruction.ofWord word)).2.m_pc =
        if branchCond (word / 2 ^ 12 % 8) (r.reg (word / 2 ^ 15 % 32))
            (r.reg (word / 2 ^ 20 % 32)) = true
        then (r.m_pc + branchOffset word) % 2 ^ 32
        else (r.m_pc + 4) % 2 ^ 32 := by
  rw [execInstruction_branch r word hop]
  unfold execBranchInstr
  simp only [ofWord_word, decodeBInstr_eq, fld, List.getD_cons_succ, List.getD_cons_zero,
    branch_target_eq]
  have hf2 : word / 2 ^ 12 % 8 = 0 ∨ word / 2 ^ 12 % 8 = 1 ∨ word / 2 ^ 12 % 8 = 4 ∨
      word / 2 ^ 12 % 8 = 5 ∨ word / 2 ^ 12 % 8 = 6 ∨ word / 2 ^ 12 % 8 = 7 := by
    simpa using hf
  rcases hf2 with h | h | h | h | h | h <;> rw [h]
  · simp [branchCond, eq_comm]
  · simp [branchCond, ne_comm]
  · simp [branchCond]
  · simp [branchCond]
  · simp [branchCond]
  · simp [branchCond]

theorem branch_conditions_witness :
    (execInstruction ((Runner.init [] (fun _ => 0)).setReg 1 0xFFFFFFFF)
        (Instruction.ofWord 0x0000C463)).1 = SUCCESS ∧
      (execInstruction ((Runner.init [] (fun _ => 0)).setReg 1 0xFFFFFFFF)
        (Instruction.ofWord 0x0000C463)).2.m_pc = 8 :=
  have h := branch_conditions ((Runner.init [] (fun _ => 0)).setReg 1 0xFFFFFFFF) 0x0000C463
    (by decide) (by decide)
  ⟨h.1, h.2.2.2.trans (by decide)⟩

/-! ## Loads, stores and arithmetic at concrete inputs -/

/-- C12 (evaluation of the code at the failing input): from the constructor state
the load `lw x1, 0(x0)` and the store `sb x0, 0(x0)` both return SUCCESS and leave
the PC at 0 instead of 4. -/
theorem load_store_keep_pc :
    (execInstruction (Runner.init [] (fun _ => 0)) (Instruction.ofWord 0x00002083)).1
        = SUCCESS ∧
      (execInstruction (Runner.init [] (fun _ => 0)) (Instruction.ofWord 0x00002083)).2.m_pc
        = 0 ∧
      (execInstruction (Runner.init [] (fun _ => 0)) (Instruction.ofWord 0x00000023)).1
        = SUCCESS ∧
      (execInstruction (Runner.init [] (fun _ => 0)) (Instruction.ofWord 0x00000023)).2.m_pc
        = 0 := by
  decide

/-- C13 (evaluation of the code at the failing input): from the constructor state
`addi x1, x0, -1` (immediate field 0xFFF) leaves 0x00000FFF in x1, not 0xFFFFFFFF:
the immediate is added zero-extended. -/
theorem addi_immediate_zero_extended :
    (execInstruction (Runner.init [] (fun _ => 0)) (Instruction.ofWord 0xFFF00093)).1
        = SUCCESS ∧
      (execInstruction (Runner.init [] (fun _ => 0)) (Instruction.ofWord 0xFFF00093)).2.reg 1
        = 0x00000FFF := by
  decide

/-- C14 (evaluation of the code at the failing input): with x1 = 5 and x2 = 3 the
word `sub x3, x1, x2` leaves 0xFFFFFFFE (3 - 5 modulo 2^32) in x3, not 2: the
operands are subtracted in the order rs2 - rs1. -/
theorem sub_operands_swapped :
    (execInstruction (((Runner.init [] (fun _ => 0)).setReg 1 5).setReg 2 3)
        (Instruction.ofWord 0x402081B3)).1 = SUCCESS ∧
      (execInstruction (((Runner.init [] (fun _ => 0)).setReg 1 5).setReg 2 3)
        (Instruction.ofWord 0x402081B3)).2.reg 3 = 0xFFFFFFFE := by
  decide

/-- C15 (evaluation of the code at the failing input): the register-arithmetic word
`xor x3, x1, x2` (funct3 100, funct7 0000000) returns SUCCESS, writes no register
and advances the PC to 4. -/
theorem unsupported_op_succeeds :
    (execInstruction (((Runner.init [] (fun _ => 0)).setReg 1 5).setReg 2 3)
        (Instruction.ofWord 0x0020C1B3)).1 = SUCCESS ∧
      (execInstruction (((Runner.init [] (fun _ => 0)).setReg 1 5).setReg 2 3)
        (Instruction.ofWord 0x0020C1B3)).2.m_reg =
        (((Runner.init [] (fun _ => 0)).setReg 1 5).setReg 2 3).m_reg ∧
      (execInstruction (((Runner.init [] (fun _ => 0)).setReg 1 5).setReg 2 3)
        (Instruction.ofWord 0x0020C1B3)).2.m_pc = 4 := by
  decide

/-- C16 (evaluation of the code at the failing input): with x2 = 0x11223344 and
zeroed memory, `sw x2, 0(x0)` writes 0x44 to byte 0 and leaves bytes 1, 2 and 3 at
0 (not 0x33, 0x22, 0x11); `sh x2, 0(x0)` likewise leaves byte 1 at 0. -/
theorem store_writes_one_byte :
    (execInstruction ((Runner.init [] (fun _ => 0)).setReg 2 0x11223344)
        (Instruction.ofWord 0x00202023)).1 = SUCCESS ∧
      (execInstruction ((Runner.init [] (fun _ => 0)).setReg 2 0x11223344)
        (Instruction.ofWord 0x00202023)).2.byte 0 = 0x44 ∧
      (execInstruction ((Runner.init [] (fun _ => 0)).setReg 2 0x11223344)
        (Instruction.ofWord 0x00202023)).2.byte 1 = 0 ∧
      (execInstruction ((Runner.init [] (fun _ => 0)).setReg 2 0x11223344)
        (Instruction.ofWord 0x00202023)).2.byte 2 = 0 ∧
      (execInstruction ((Runner.init [] (fun _ => 0)).setReg 2 0x11223344)
        (Instruction.ofWord 0x00202023)).2.byte 3 = 0 ∧
      (execInstruction ((Runner.init [] (fun _ => 0)).setReg 2 0x11223344)
        (Instruction.ofWord 0x00201023)).2.byte 1 = 0 := by
  decide

/-- C17 (evaluation of the code at the failing input): with x1 = 100 and x2 = 0xAB,
`sb x2, 0(x1)` stores 0xAB at byte 100, and the following `lbu x3, 0(x1)` reads
byte 1 (immediate plus the register index of x1) and leaves 0 in x3, not 0xAB. -/
theorem byte_store_load_mismatch :
    (execWords (((Runner.init [] (fun _ => 0)).setReg 1 100).setReg 2 0xAB)
        [0x00208023]).byte 100 = 0xAB ∧
      (execWords (((Runner.init [] (fun _ => 0)).setReg 1 100).setReg 2 0xAB)
        [0x00208023, 0x0000C183]).reg 3 = 0 := by
  decide

/-! ## Register-file index safety -/

theorem regChecked_eq (r : Runner) (i : Nat) (h : i < r.m_reg.length) :
    r.regChecked i = some (r.reg i) := by
  unfold Runner.regChecked Runner.reg
  rw [List.getD_eq_getElem?_getD, List.getElem?_eq_getElem h]
  rfl

theorem setRegChecked_eq (r : Runner) (i v : Nat) (h : i < r.m_reg.length) :
    r.setRegChecked i v = some (r.setReg i v) := by
  unfold Runner.setRegChecked
  rw [if_pos h]

theorem setReg_length (r : Runner) (i v : Nat) : (r.setReg i v).m_reg.length = r.m_reg.length := by
  simp [Runner.setReg]

theorem execLuiInstrChecked_eq (r : Runner) (instr : Instruction) (hlen : r.m_reg.length = 32) :
    execLuiInstrChecked r instr = some (execLuiInstr r instr) := by
  have h1 : instr.word / 2 ^ 7 % 32 < r.m_reg.length := by
    rw [hlen]; exact Nat.mod_lt _ (by decide)
  unfold execLuiInstrChecked execLuiInstr
  simp only [decodeUInstr_eq, fldChecked, fld, List.getD_cons_succ, List.getD_cons_zero,
    List.getElem?_cons_succ, List.getElem?_cons_zero, Option.bind_eq_bind, Option.some_bind,
    Option.pure_def, setRegChecked_eq _ _ _ h1]

theorem execJalInstrChecked_eq (r : Runner) (instr : Instruction) (hlen : r.m_reg.length = 32) :
    execJalInstrChecked r instr = some (execJalInstr r instr) := by
  have h1 : instr.word / 2 ^ 7 % 32 < r.m_reg.length := by
    rw [hlen]; exact Nat.mod_lt _ (by decide)
  unfold execJalInstrChecked execJalInstr
  simp only [decodeJInstr_eq, fldChecked, fld, List.getD_cons_succ, List.getD_cons_zero,
    List.getElem?_cons_succ, List.getElem?_cons_zero, Option.bind_eq_bind, Option.some_bind,
    Option.pure_def, Runner.setRegChecked, if_pos h1]

theorem execJalrInstrChecked_eq (r : Runner) (instr : Instruction) (hlen : r.m_reg.length = 32) :
    execJalrInstrChecked r instr = some (execJalrInstr r instr) := by
  have h1 : instr.word / 2 ^ 7 % 32 < r.m_reg.length := by
    rw [hlen]; exact Nat.mod_lt _ (by decide)
  unfold execJalrInstrChecked execJalrInstr
  simp only [decodeIInstr_eq, fldChecked, fld, List.getD_cons_succ, List.getD_cons_zero,
    List.getElem?_cons_succ, List.getElem?_cons_zero, Option.bind_eq_bind, Option.some_bind,
    Option.pure_def, setRegChecked_eq _ _ _ h1]

theorem execBranchInstrChecked_eq (r : Runner) (instr : Instruction)
    (hlen : r.m_reg.length = 32) :
    execBranchInstrChecked r instr = some (execBranchInstr r instr) := by
  have h1 : instr.word / 2 ^ 20 % 32 < r.m_reg.length := by
    rw [hlen]; exact Nat.mod_lt _ (by decide)
  have h2 : instr.word / 2 ^ 15 % 32 < r.m_reg.length := by
    rw [hlen]; exact Nat.mod_lt _ (by decide)
  have hf : instr.word / 2 ^ 12 % 8 < 8 := Nat.mod_lt _ (by decide)
  unfold execBranchInstrChecked execBranchInstr
  simp only [decodeBInstr_eq, fldChecked, fld, List.getD_cons_succ, List.getD_cons_zero,
    List.getElem?_cons_succ, List.getElem?_cons_zero, Option.bind_eq_bind, Option.some_bind,
    Option.pure_def, regChecked_eq _ _ h1, regChecked_eq _ _ h2]
  generalize instr.word / 2 ^ 12 % 8 = f at hf
  interval_cases f <;> rfl

theorem execLoadInstrChecked_eq (r : Runner) (instr : Instruction) (hlen : r.m_reg.length = 32) :
    execLoadInstrChecked r instr = some (execLoadInstr r instr) := by
  have h1 : instr.word / 2 ^ 7 % 32 < r.m_reg.length := by
    rw [hlen]; exact Nat.mod_lt _ (by decide)
  have hf : instr.word / 2 ^ 12 % 8 < 8 := Nat.mod_lt _ (by decide)
  unfold execLoadInstrChecked execLoadInstr
  simp only [decodeIInstr_eq, fldChecked, fld, List.getD_cons_succ, List.getD_cons_zero,
    List.getElem?_cons_succ, List.getElem?_cons_zero, Option.bind_eq_bind, Option.some_bind,
    Option.pure_def, setRegChecked_eq _ _ _ h1]
  by_cases hrd : instr.word / 2 ^ 7 % 32 = 0
  · rw [if_pos hrd, if_pos hrd]
  · rw [if_neg hrd, if_neg hrd]
    generalize instr.word / 2 ^ 12 % 8 = f at hf
    interval_cases f <;> rfl

theorem execStoreInstrChecked_eq (r : Runner) (instr : Instruction)
    (hlen : r.m_reg.length = 32) :
    execStoreInstrChecked r instr = some (execStoreInstr r instr) := by
  have h1 : instr.word / 2 ^ 20 % 32 < r.m_reg.length := by
    rw [hlen]; exact Nat.mod_lt _ (by decide)
  have h2 : instr.word / 2 ^ 15 % 32 < r.m_reg.length := by
    rw [hlen]; exact Nat.mod_lt _ (by decide)
  have hf : instr.word / 2 ^ 12 % 8 < 8 := Nat.mod_lt _ (by decide)
  unfold execStoreInstrChecked execStoreInstr
  simp only [decodeSInstr_eq, fldChecked, fld, List.getD_cons_succ, List.getD_cons_zero,
    List.getElem?_cons_succ, List.getElem?_cons_zero, Option.bind_eq_bind, Option.some_bind,
    Option.pure_def, regChecked_eq _ _ h1, regChecked_eq _ _ h2]
  generalize instr.word / 2 ^ 12 % 8 = f at hf
  interval_cases f <;> rfl

theorem execOpImmInstrChecked_eq (r : Runner) (instr : Instruction)
    (hlen : r.m_reg.length = 32) :
    execOpImmInstrChecked r instr = some (execOpImmInstr r instr) := by
  have h1 : instr.word / 2 ^ 7 % 32 < r.m_reg.length := by
    rw [hlen]; exact Nat.mod_lt _ (by decide)
  have h2 : instr.word / 2 ^ 15 % 32 < r.m_reg.length := by
    rw [hlen]; exact Nat.mod_lt _ (by decide)
  have hf : instr.word / 2 ^ 12 % 8 < 8 := Nat.mod_lt _ (by decide)
  unfold execOpImmInstrChecked execOpImmInstr
  simp only [decodeIInstr_eq, fldChecked, fld, List.getD_cons_succ, List.getD_cons_zero,
    List.getElem?_cons_succ, List.getElem?_cons_zero, Option.bind_eq_bind, Option.some_bind,
    Option.pure_def, regChecked_eq _ _ h2, setRegChecked_eq _ _ _ h1]
  by_cases hrd : instr.word / 2 ^ 7 % 32 = 0
  · rw [if_pos hrd, if_pos hrd]
  · rw [if_neg hrd, if_neg hrd]
    generalize instr.word / 2 ^ 12 % 8 = f at hf
    interval_cases f <;> rfl

theorem execOpInstrChecked_eq (r : Runner) (instr : Instruction) (hlen : r.m_reg.length = 32) :
    execOpInstrChecked r instr = some (execOpInstr r instr) := by
  have h1 : instr.word / 2 ^ 7 % 32 < r.m_reg.length := by
    rw [hlen]; exact Nat.mod_lt _ (by decide)
  have h2 : instr.word / 2 ^ 15 % 32 < r.m_reg.length := by
    rw [hlen]; exact Nat.mod_lt _ (by decide)
  have h3 : instr.word / 2 ^ 20 % 32 < r.m_reg.length := by
    rw [hlen]; exact Nat.mod_lt _ (by decide)
  unfold execOpInstrChecked execOpInstr
  simp only [decodeRInstr_eq, fldChecked, fld, List.getD_cons_succ, List.getD_cons_zero,
    List.getElem?_cons_succ, List.getElem?_cons_zero, Option.bind_eq_bind, Option.some_bind,
    Option.pure_def, regChecked_eq _ _ h2, regChecked_eq _ _ h3, setRegChecked_eq _ _ _ h1]
  by_cases hf : instr.word / 2 ^ 12 % 8 = 0
  · rw [if_pos hf, if_pos hf]
    generalize instr.word / 2 ^ 25 % 128 = g
    by_cases h0 : g = 0
    · subst h0
      rfl
    · by_cases h32 : g = 32
      · subst h32
        rfl
      · rw [if_neg (by simp [h0, h32] : ¬ (g = 0 ∨ g = 32)), if_neg h0, if_neg h32]
  · rw [if_neg hf, if_neg hf]

theorem execLuiInstr_length (r : Runner) (instr : Instruction) :
    (execLuiInstr r instr).2.m_reg.length = r.m_reg.length := by
  simp [execLuiInstr, Runner.setReg]

theorem execJalInstr_length (r : Runner) (instr : Instruction) :
    (execJalInstr r instr).2.m_reg.length = r.m_reg.length := by
  simp [execJalInstr, Runner.setReg]

theorem execJalrInstr_length (r : Runner) (instr : Instruction) :
    (execJalrInstr r instr).2.m_reg.length = r.m_reg.length := by
  simp [execJalrInstr, Runner.setReg]

theorem execBranchInstr_length (r : Runner) (instr : Instruction) :
    (execBranchInstr r instr).2.m_reg.length = r.m_reg.length := by
  unfold execBranchInstr
  dsimp only
  split_ifs <;> rfl

theorem execLoadInstr_length (r : Runner) (instr : Instruction) :
    (execLoadInstr r instr).2.m_reg.length = r.m_reg.length := by
  unfold execLoadInstr
  dsimp only
  split_ifs <;> simp [Runner.setReg]

theorem execStoreInstr_length (r : Runner) (instr : Instruction) :
    (execStoreInstr r instr).2.m_reg.length = r.m_reg.length := by
  unfold execStoreInstr
  dsimp only
  split_ifs <;> rfl

theorem execOpImmInstr_length (r : Runner) (instr : Instruction) :
    (execOpImmInstr r instr).2.m_reg.length = r.m_reg.length := by
  unfold execOpImmInstr
  dsimp only
  split_ifs <;> simp [Runner.setReg]

theorem execOpInstr_length (r : Runner) (instr : Instruction) :
    (execOpInstr r instr).2.m_reg.length = r.m_reg.length := by
  unfold execOpInstr
  dsimp only
  split_ifs <;> simp [Runner.setReg]

theorem execInstruction_length (r : Runner) (instr : Instruction) :
    (execInstruction r instr).2.m_reg.length = r.m_reg.length := by
  unfold execInstruction
  split_ifs
  · exact execLuiInstr_length r instr
  · exact execJalInstr_length r instr
  · exact execJalrInstr_length r instr
  · exact execBranchInstr_length r instr
  · exact execLoadInstr_length r instr
  · exact execStoreInstr_length r instr
  · exact execOpImmInstr_length r instr
  · exact execOpInstr_length r instr
  · rfl

/-- C20: for every state with a 32-entry register file and every instruction, the
step with every decoded-field access and every register-file read and write
bounds-checked never hits an out-of-bounds access and returns exactly what
`execInstruction` returns, and the register file still has exactly 32 entries. -/
theorem register_index_safety (r : Runner) (instr : Instruction) (hlen : r.m_reg.length = 32) :
    execInstructionChecked r instr = some (execInstruction r instr) ∧
      (execInstruction r instr).2.m_reg.length = 32 := by
  refine ⟨?_, by rw [execInstruction_length, hlen]⟩
  unfold execInstructionChecked execInstruction
  split_ifs
  · exact execLuiInstrChecked_eq r instr hlen
  · exact execJalInstrChecked_eq r instr hlen
  · exact execJalrInstrChecked_eq r instr hlen
  · exact execBranchInstrChecked_eq r instr hlen
  · exact execLoadInstrChecked_eq r instr hlen
  · exact execStoreInstrChecked_eq r instr hlen
  · exact execOpImmInstrChecked_eq r instr hlen
  · exact execOpInstrChecked_eq r instr hlen
  · rfl

theorem register_index_safety_witness :
    (Runner.init [] (fun _ => 0)).m_reg.length = 32 ∧
      execInstructionChecked (Runner.init [] (fun _ => 0)) (Instruction.ofWord 0x402081B3) =
        some (execInstruction (Runner.init [] (fun _ => 0)) (Instruction.ofWord 0x402081B3)) :=
  ⟨by decide, (register_index_safety (Runner.init [] (fun _ => 0))
    (Instruction.ofWord 0x402081B3) (by decide)).1⟩

/-! ## Fetch past the end of the image -/

/-- C19 (counterexample): the decoders do not return the S, B, U and J fields in
the order the tables list. `sb x2, 0(x1)` decodes to [0, 2, 1, 0, 0], not to
[imm_hi, funct3, rs1, rs2, imm_lo] = [0, 0, 1, 2, 0]; `beq x1, x2, +8` decodes to
[0, 0, 2, 1, 0, 4, 0], not to [0, 4, 0, 1, 2, 0, 0]; `lui x1, 0x12345` decodes to
[0x12345, 1], not to [rd, imm20] = [1, 0x12345]; `jal x1, +8` decodes to
[0, 4, 0, 0, 1], not to [1, 0, 0, 4, 0]. -/
theorem field_tables_counterexample :
    decodeSInstr 0x00208023 ≠
        [bitSlice 0x00208023 31 25, bitSlice 0x00208023 14 12, bitSlice 0x00208023 19 15,
          bitSlice 0x00208023 24 20, bitSlice 0x00208023 11 7] ∧
      decodeBInstr 0x00208463 ≠
        [bitSlice 0x00208463 7 7, bitSlice 0x00208463 11 8, bitSlice 0x00208463 14 12,
          bitSlice 0x00208463 19 15, bitSlice 0x00208463 24 20, bitSlice 0x00208463 30 25,
          bitSlice 0x00208463 31 31] ∧
      decodeUInstr 0x123450B7 ≠ [bitSlice 0x123450B7 11 7, bitSlice 0x123450B7 31 12] ∧
      decodeJInstr 0x008000EF ≠
        [bitSlice 0x008000EF 11 7, bitSlice 0x008000EF 19 12, bitSlice 0x008000EF 20 20,
          bitSlice 0x008000EF 30 21, bitSlice 0x008000EF 31 31] := by
  decide

/-- C19 (amended): for every word, each format decoder returns its fields
most-significant first, each name denoting its RV32I bit slice:
R -> [funct7, rs2, rs1, funct3, rd]; I -> [imm, rs1, funct3, rd];
S -> [imm_hi, rs2, rs1, funct3, imm_lo];
B -> [imm_bit12, imm_10_5, rs2, rs1, funct3, imm_4_1, imm_bit11];
U -> [imm20, rd]; J -> [imm_bit20, imm_10_1, imm_bit11, imm_19_12, rd]. -/
theorem field_tables (word : Nat) :
    decodeRInstr word =
        [bitSlice word 31 25, bitSlice word 24 20, bitSlice word 19 15, bitSlice word 14 12,
          bitSlice word 11 7] ∧
      decodeIInstr word =
        [bitSlice word 31 20, bitSlice word 19 15, bitSlice word 14 12, bitSlice word 11 7] ∧
      decodeSInstr word =
        [bitSlice word 31 25, bitSlice word 24 20, bitSlice word 19 15, bitSlice word 14 12,
          bitSlice word 11 7] ∧
      decodeBInstr word =
        [bitSlice word 31 31, bitSlice word 30 25, bitSlice word 24 20, bitSlice word 19 15,
          bitSlice word 14 12, bitSlice word 11 8, bitSlice word 7 7] ∧
      decodeUInstr word = [bitSlice word 31 12, bitSlice word 11 7] ∧
      decodeJInstr word =
        [bitSlice word 31 31, bitSlice word 30 21, bitSlice word 20 20, bitSlice word 19 12,
          bitSlice word 11 7] := by
  refine ⟨?_, ?_, ?_, ?_, ?_, ?_⟩
  · rw [decodeRInstr_eq]; simp [bitSlice, Nat.shiftRight_eq_div_pow]
  · rw [decodeIInstr_eq]; simp [bitSlice, Nat.shiftRight_eq_div_pow]
  · rw [decodeSInstr_eq]; simp [bitSlice, Nat.shiftRight_eq_div_pow]
  · rw [decodeBInstr_eq]; simp [bitSlice, Nat.shiftRight_eq_div_pow]
  · rw [decodeUInstr_eq]; simp [bitSlice, Nat.shiftRight_eq_div_pow]
  · rw [decodeJInstr_eq]; simp [bitSlice, Nat.shiftRight_eq_div_pow]

end Ripes
